import Mathlib

/-!
Shallow embedding of the session/transfer coordination core of
src/server.js (rooms registry, chunked-transfer coordinator, and the
notification fan-out of each socket event handler).

Identifiers (socket ids, user ids, room PINs, transfer ids) are strings,
as in the source.  A JS Map is an association list preserving insertion
order; a JS Set is a duplicate-free list preserving insertion order.
A JS sparse array of chunks is a list of optional payloads, where a hole
is modelled as none.
-/

abbrev SocketId := String
abbrev UserId := String
abbrev Pin := String
abbrev TransferId := String

/-- A chunk payload: a byte sequence. -/
abbrev Chunk := List Nat

/-- Lookup in a JS Map modelled as an association list (first match). -/
def mapLookup {α β : Type} [DecidableEq α] : List (α × β) → α → Option β
  | [], _ => none
  | (k, v) :: rest, key => if k = key then some v else mapLookup rest key

/-- Map.set: replace the value at an existing key, or append a new entry. -/
def mapSet {α β : Type} [DecidableEq α] : List (α × β) → α → β → List (α × β)
  | [], key, val => [(key, val)]
  | (k, v) :: rest, key, val =>
    if k = key then (k, val) :: rest else (k, v) :: mapSet rest key val

/-- Map.delete: remove the entry at a key (keys are unique by construction). -/
def mapDelete {α β : Type} [DecidableEq α] : List (α × β) → α → List (α × β)
  | [], _ => []
  | (k, v) :: rest, key => if k = key then rest else (k, v) :: mapDelete rest key

/-- Set.add: append the element if it is not already present. -/
def setAdd (l : List UserId) (u : UserId) : List UserId :=
  if u ∈ l then l else l ++ [u]

/-- Sparse-array assignment a[i] = x, padding with holes as JS does. -/
def listSet {α : Type} : List (Option α) → Nat → α → List (Option α)
  | [], 0, x => [some x]
  | [], i + 1, x => none :: listSet [] i x
  | _ :: rest, 0, x => some x :: rest
  | o :: rest, i + 1, x => o :: listSet rest i x

/-- Index read on a sparse array: the entry at i, or a hole when out of range. -/
def chunkGet {α : Type} (l : List (Option α)) (i : Nat) : Option α :=
  l.getD i none

/-- One entry of a room's participants list: a (connection, user) pair. -/
structure Participant where
  socketId : SocketId
  userId : UserId
deriving DecidableEq

/-- A room record, as stored in the rooms map. -/
structure Room where
  creator : SocketId
  creatorUserId : Option UserId
  participants : List Participant
  uniqueUsers : List UserId
  createdAt : Nat
deriving DecidableEq

/-- A transfer record, as stored in the activeTransfers map. -/
structure Transfer where
  fromId : SocketId
  pin : Pin
  fileName : String
  fileSize : Nat
  fileType : String
  chunks : List (Option Chunk)
  totalChunks : Nat
  recipients : List SocketId
  startTime : Nat
deriving DecidableEq

/-- Outbound notification payloads (socket event name and arguments). -/
inductive Payload where
  | user_joined (socketId : SocketId) (userId : UserId)
  | user_left (socketId : SocketId) (userId : UserId)
  | incoming_file (transferId : TransferId) (fileName : String) (fileSize : Nat)
      (fileType : String) (fromId : SocketId)
  | transfer_error (transferId : TransferId) (error : String)
  | upload_progress (transferId : TransferId) (progress : Nat)
  | file_received (transferId : TransferId) (fileName : String) (fileType : String)
      (fileData : Chunk) (fromId : SocketId)
  | transfer_complete (transferId : TransferId)
  | download_ready (transferId : TransferId)
  | transfer_rejected (transferId : TransferId) (rejectedBy : SocketId)
  | transfer_cancelled (transferId : TransferId)
deriving DecidableEq

/-- One emission: a payload delivered to a resolved list of target connections. -/
structure Emit where
  targets : List SocketId
  payload : Payload
deriving DecidableEq

/-- Acknowledgement of join_room. -/
inductive JoinRes where
  | ok (participants : Nat) (isCreator : Bool)
  | err (msg : String)
deriving DecidableEq

/-- Acknowledgement of initiate_file_transfer. -/
inductive InitRes where
  | ok (transferId : TransferId)
  | err (msg : String)
deriving DecidableEq

/-- Acknowledgement of respond_to_file. -/
inductive RespondRes where
  | ok
  | err (msg : String)
deriving DecidableEq

/-- Acknowledgement of get_room_info. -/
inductive RoomInfoRes where
  | ok (participants : Nat) (isCreator : Bool) (createdAt : Nat)
  | err (msg : String)
deriving DecidableEq

/-- The process-wide mutable state: the rooms map, the activeTransfers map,
and the transport-level (socket.io) room membership used by broadcasts. -/
structure ServerState where
  rooms : List (Pin × Room)
  activeTransfers : List (TransferId × Transfer)
  socketRooms : List (Pin × List SocketId)
deriving DecidableEq

/-- Members of a transport room (socket.io adapter view). -/
def socketRoomMembers (sr : List (Pin × List SocketId)) (pin : Pin) : List SocketId :=
  (mapLookup sr pin).getD []

/-- socket.join(pin). -/
def socketJoin (sr : List (Pin × List SocketId)) (pin : Pin) (sid : SocketId) :
    List (Pin × List SocketId) :=
  let m := socketRoomMembers sr pin
  mapSet sr pin (if sid ∈ m then m else m ++ [sid])

/-- socket.leave(pin). -/
def socketLeave (sr : List (Pin × List SocketId)) (pin : Pin) (sid : SocketId) :
    List (Pin × List SocketId) :=
  mapSet sr pin ((socketRoomMembers sr pin).filter (fun x => ! (x == sid)))

/-- On a transport disconnect the socket leaves every transport room. -/
def socketLeaveAll (sr : List (Pin × List SocketId)) (sid : SocketId) :
    List (Pin × List SocketId) :=
  sr.map (fun e => (e.1, e.2.filter (fun x => ! (x == sid))))

/-- socket.to(pin) seen from sid: all members of the transport room except sid. -/
def roomTargetsExcept (sr : List (Pin × List SocketId)) (pin : Pin) (sid : SocketId) :
    List SocketId :=
  (socketRoomMembers sr pin).filter (fun x => ! (x == sid))

/-- The state at process start: no rooms, no transfers. -/
def initialState : ServerState := ⟨[], [], []⟩

/-- Handler create_room: store a room with the creator as sole member and
join the transport room.  The generated PIN is a parameter; the source's
retry loop guarantees it is fresh, which the step relation records as a
side condition. -/
def create_room (s : ServerState) (sid : SocketId) (uid : UserId) (pin : Pin)
    (now : Nat) : ServerState :=
  { s with
    rooms := mapSet s.rooms pin ⟨sid, some uid, [⟨sid, uid⟩], [uid], now⟩,
    socketRooms := socketJoin s.socketRooms pin sid }

/-- POST /api/room: store a room with creator "web-api" and an empty
participants list; no transport join happens. -/
def api_create_room (s : ServerState) (pin : Pin) (now : Nat) : ServerState :=
  { s with rooms := mapSet s.rooms pin ⟨"web-api", none, [], [], now⟩ }

/-- Handler join_room. -/
def join_room (s : ServerState) (sid : SocketId) (uid : UserId) (pin : Pin) :
    ServerState × List Emit × JoinRes :=
  match mapLookup s.rooms pin with
  | none => (s, [], .err "Invalid PIN")
  | some room =>
    match room.participants.find? (fun p => p.socketId == sid) with
    | some _ => (s, [], .err "Already in room")
    | none =>
      let room' := { room with
        participants := room.participants ++ [⟨sid, uid⟩],
        uniqueUsers := setAdd room.uniqueUsers uid }
      let sr' := socketJoin s.socketRooms pin sid
      ({ s with rooms := mapSet s.rooms pin room', socketRooms := sr' },
       [⟨roomTargetsExcept sr' pin sid, .user_joined sid uid⟩],
       .ok room'.uniqueUsers.length (room.creator == sid))

/-- The shared participant-removal core of leave_room and the disconnect
handler: find the participant, drop every entry with that socket id, and
drop the user from uniqueUsers when no remaining pair carries it.
Returns the updated room and the removed user's id, or none when the
socket is not a participant. -/
def removeParticipant (sid : SocketId) (room : Room) : Option (Room × UserId) :=
  match room.participants.find? (fun p => p.socketId == sid) with
  | none => none
  | some participant =>
    let remaining := room.participants.filter (fun p => ! (p.socketId == sid))
    let stillHasUser := remaining.any (fun p => p.userId == participant.userId)
    let uniqueUsers' := if stillHasUser then room.uniqueUsers
      else room.uniqueUsers.filter (fun u => ! (u == participant.userId))
    some ({ room with participants := remaining, uniqueUsers := uniqueUsers' },
      participant.userId)

/-- Handler leave_room: no-op when the room or the participant is absent;
otherwise remove the pair, leave the transport room, notify the remaining
members, and delete the room when it became empty. -/
def leave_room (s : ServerState) (sid : SocketId) (pin : Pin) :
    ServerState × List Emit :=
  match mapLookup s.rooms pin with
  | none => (s, [])
  | some room =>
    match removeParticipant sid room with
    | none => (s, [])
    | some (room', uid) =>
      let sr' := socketLeave s.socketRooms pin sid
      let ev : Emit := ⟨roomTargetsExcept sr' pin sid, .user_left sid uid⟩
      if room'.participants.length = 0 then
        ({ s with rooms := mapDelete s.rooms pin, socketRooms := sr' }, [ev])
      else
        ({ s with rooms := mapSet s.rooms pin room', socketRooms := sr' }, [ev])

/-- Handler initiate_file_transfer: snapshot the other members as
recipients, store a fresh transfer record with an empty chunk list, and
notify the room (except the sender) of the incoming file.  The generated
transfer id and Date.now() are parameters. -/
def initiate_file_transfer (s : ServerState) (sid : SocketId) (pin : Pin)
    (fileName : String) (fileSize : Nat) (fileType : String)
    (tid : TransferId) (now : Nat) : ServerState × List Emit × InitRes :=
  match mapLookup s.rooms pin with
  | none => (s, [], .err "Room not found")
  | some room =>
    let recipients :=
      (room.participants.filter (fun p => ! (p.socketId == sid))).map (·.socketId)
    if recipients.length = 0 then
      (s, [], .err "No recipients in room")
    else
      let t : Transfer := ⟨sid, pin, fileName, fileSize, fileType, [], 0, recipients, now⟩
      ({ s with activeTransfers := mapSet s.activeTransfers tid t },
       [⟨roomTargetsExcept s.socketRooms pin sid,
          .incoming_file tid fileName fileSize fileType sid⟩],
       .ok tid)

/-- Math.round((received / total) * 100) on non-negative integers:
round half away from zero of 100 * received / total. -/
def jsRoundPercent (received total : Nat) : Nat :=
  (200 * received + total) / (2 * total)

/-- Handler file_chunk: reject (with a transfer_error notification) when
the transfer is unknown or the caller is not its sender; otherwise store
the chunk at its index, record the total on isLast, report progress to
the sender, and when the completion condition holds deliver the
concatenation to the transport room (except the sender), notify the
sender of completion, and delete the record.  When the completion
condition fires on a sparse chunks array (a hole below the highest
stored index), Buffer.concat throws a TypeError on the hole: the
handler aborts after the upload_progress emission, with the stored
chunk and recorded total kept in the map and nothing delivered or
deleted. -/
def file_chunk (s : ServerState) (sid : SocketId) (tid : TransferId)
    (chunkIndex : Nat) (chunkData : Chunk) (isLast : Bool) :
    ServerState × List Emit :=
  match mapLookup s.activeTransfers tid with
  | none => (s, [⟨[sid], .transfer_error tid "Invalid transfer"⟩])
  | some transfer =>
    if transfer.fromId = sid then
      let chunks' := listSet transfer.chunks chunkIndex chunkData
      let total' := if isLast then chunkIndex + 1 else transfer.totalChunks
      let t' : Transfer := { transfer with chunks := chunks', totalChunks := total' }
      let receivedChunks := (chunks'.filterMap id).length
      let progress := jsRoundPercent receivedChunks (if total' = 0 then 1 else total')
      let progressEmit : Emit := ⟨[sid], .upload_progress tid progress⟩
      if isLast = true ∧ receivedChunks = total' then
        if chunks'.all (fun o => o.isSome) then
          let completeFile := (chunks'.map (fun c => c.getD [])).flatten
          ({ s with activeTransfers := mapDelete s.activeTransfers tid },
           [progressEmit,
            ⟨roomTargetsExcept s.socketRooms transfer.pin sid,
              .file_received tid transfer.fileName transfer.fileType completeFile sid⟩,
            ⟨[sid], .transfer_complete tid⟩])
        else
          ({ s with activeTransfers := mapSet s.activeTransfers tid t' },
           [progressEmit])
      else
        ({ s with activeTransfers := mapSet s.activeTransfers tid t' },
         [progressEmit])
    else
      (s, [⟨[sid], .transfer_error tid "Invalid transfer"⟩])

/-- Handler respond_to_file: error on an unknown transfer; on accept tell
the responder the download may proceed; on reject notify the original
sender, naming the responder.  The transfer record is never touched. -/
def respond_to_file (s : ServerState) (sid : SocketId) (tid : TransferId)
    (accept : Bool) : ServerState × List Emit × RespondRes :=
  match mapLookup s.activeTransfers tid with
  | none => (s, [], .err "Transfer not found")
  | some transfer =>
    if accept then
      (s, [⟨[sid], .download_ready tid⟩], .ok)
    else
      (s, [⟨[transfer.fromId], .transfer_rejected tid sid⟩], .ok)

/-- Handler get_room_info (read-only). -/
def get_room_info (s : ServerState) (sid : SocketId) (pin : Pin) : RoomInfoRes :=
  match mapLookup s.rooms pin with
  | none => .err "Room not found"
  | some room =>
    .ok room.uniqueUsers.length (room.creator == sid) room.createdAt

/-- The room loop of the disconnect handler, processing the entries of the
rooms map in iteration order: for each room where the socket appears,
remove it (as leave_room does), emit user_left to the transport room, and
drop the room entry when it became empty. -/
def disconnectRooms (sid : SocketId) (sr : List (Pin × List SocketId)) :
    List (Pin × Room) → List (Pin × Room) × List Emit
  | [] => ([], [])
  | (pin, room) :: rest =>
    let r := disconnectRooms sid sr rest
    match removeParticipant sid room with
    | none => ((pin, room) :: r.1, r.2)
    | some (room', uid) =>
      let ev : Emit := ⟨roomTargetsExcept sr pin sid, .user_left sid uid⟩
      if room'.participants.length = 0 then (r.1, ev :: r.2)
      else ((pin, room') :: r.1, ev :: r.2)

/-- Handler disconnect: the transport has already removed the socket from
every transport room; then the handler scans all rooms and removes the
socket from each (deleting rooms that became empty), and only afterwards
deletes every transfer whose sender is the socket, emitting
transfer_cancelled to each such transfer's room. -/
def disconnect (s : ServerState) (sid : SocketId) : ServerState × List Emit :=
  let sr := socketLeaveAll s.socketRooms sid
  let r := disconnectRooms sid sr s.rooms
  let cancelled := s.activeTransfers.filter (fun e => e.2.fromId == sid)
  let transfers' := s.activeTransfers.filter (fun e => ! (e.2.fromId == sid))
  let cancelEvents := cancelled.map
    (fun e => Emit.mk (socketRoomMembers sr e.2.pin) (.transfer_cancelled e.1))
  (⟨r.1, transfers', sr⟩, r.2 ++ cancelEvents)

/-- The periodic sweep: delete every room older than one hour. -/
def cleanupExpiredRooms (s : ServerState) (now : Nat) : ServerState :=
  { s with rooms := s.rooms.filter (fun e => ! decide (e.2.createdAt < now - 3600000)) }

/-- Submit a list of chunk events for one transfer, in the given index
order, flagging isLast exactly on the chunk whose index is the final one
of chunkList; the payload of index i is chunkList[i]. -/
def runChunks (sid : SocketId) (tid : TransferId) (chunkList : List Chunk) :
    ServerState → List Nat → ServerState × List Emit
  | s, [] => (s, [])
  | s, i :: rest =>
    let r := file_chunk s sid tid i (chunkList.getD i [])
      (decide (i + 1 = chunkList.length))
    let r2 := runChunks sid tid chunkList r.1 rest
    (r2.1, r.2 ++ r2.2)

/-- One reaction of the server to an inbound event.  Room-creating steps
carry the source's PIN-freshness guarantee (the retry loop) as a side
condition; all other parameters are arbitrary. -/
inductive Step : ServerState → ServerState → Prop where
  | create (s : ServerState) (sid : SocketId) (uid : UserId) (pin : Pin) (now : Nat)
      (h : mapLookup s.rooms pin = none) : Step s (create_room s sid uid pin now)
  | apiCreate (s : ServerState) (pin : Pin) (now : Nat)
      (h : mapLookup s.rooms pin = none) : Step s (api_create_room s pin now)
  | join (s : ServerState) (sid : SocketId) (uid : UserId) (pin : Pin) :
      Step s (join_room s sid uid pin).1
  | leave (s : ServerState) (sid : SocketId) (pin : Pin) :
      Step s (leave_room s sid pin).1
  | initiate (s : ServerState) (sid : SocketId) (pin : Pin) (fileName : String)
      (fileSize : Nat) (fileType : String) (tid : TransferId) (now : Nat) :
      Step s (initiate_file_transfer s sid pin fileName fileSize fileType tid now).1
  | chunk (s : ServerState) (sid : SocketId) (tid : TransferId) (i : Nat)
      (c : Chunk) (b : Bool) : Step s (file_chunk s sid tid i c b).1
  | respond (s : ServerState) (sid : SocketId) (tid : TransferId) (a : Bool) :
      Step s (respond_to_file s sid tid a).1
  | disc (s : ServerState) (sid : SocketId) : Step s (disconnect s sid).1
  | sweep (s : ServerState) (now : Nat) : Step s (cleanupExpiredRooms s now)

/-- A state the server can reach from process start. -/
def Reachable (s : ServerState) : Prop :=
  Relation.ReflTransGen Step initialState s

/-- The step relation with the out-of-band HTTP room creation removed:
only socket-event reactions (create_room, join, leave, transfers,
disconnect) and the periodic sweep. -/
inductive SockStep : ServerState → ServerState → Prop where
  | create (s : ServerState) (sid : SocketId) (uid : UserId) (pin : Pin) (now : Nat)
      (h : mapLookup s.rooms pin = none) : SockStep s (create_room s sid uid pin now)
  | join (s : ServerState) (sid : SocketId) (uid : UserId) (pin : Pin) :
      SockStep s (join_room s sid uid pin).1
  | leave (s : ServerState) (sid : SocketId) (pin : Pin) :
      SockStep s (leave_room s sid pin).1
  | initiate (s : ServerState) (sid : SocketId) (pin : Pin) (fileName : String)
      (fileSize : Nat) (fileType : String) (tid : TransferId) (now : Nat) :
      SockStep s (initiate_file_transfer s sid pin fileName fileSize fileType tid now).1
  | chunk (s : ServerState) (sid : SocketId) (tid : TransferId) (i : Nat)
      (c : Chunk) (b : Bool) : SockStep s (file_chunk s sid tid i c b).1
  | respond (s : ServerState) (sid : SocketId) (tid : TransferId) (a : Bool) :
      SockStep s (respond_to_file s sid tid a).1
  | disc (s : ServerState) (sid : SocketId) : SockStep s (disconnect s sid).1
  | sweep (s : ServerState) (now : Nat) : SockStep s (cleanupExpiredRooms s now)

/-- A state reachable without the out-of-band HTTP create endpoint. -/
def ReachableSock (s : ServerState) : Prop :=
  Relation.ReflTransGen SockStep initialState s

/-- Example trace state: socket S created room 777777. -/
def exState1 : ServerState := create_room initialState "S" "uS" "777777" 0

/-- Example trace state: then socket R (user uR) joined. -/
def exState2 : ServerState := (join_room exState1 "R" "uR" "777777").1

/-- Example trace state: then S initiated transfer T1 (snapshot recipients [R]). -/
def exState3 : ServerState :=
  (initiate_file_transfer exState2 "S" "777777" "f.txt" 10 "text/plain" "T1" 5).1

/-- Example trace state: then R left the room. -/
def exState4 : ServerState := (leave_room exState3 "R" "777777").1

/-- Example trace state: then socket T (user uT) joined. -/
def exState5 : ServerState := (join_room exState4 "T" "uT" "777777").1

/-- Example trace state: same-user second connection, R2 joins with user uS. -/
def exState2b : ServerState := (join_room exState1 "R2" "uS" "777777").1


/-- Keys of an association-list map are pairwise distinct. -/
def keysNodup {α β : Type} [DecidableEq α] (m : List (α × β)) : Prop :=
  (m.map Prod.fst).Nodup

theorem mapLookup_mapSet_self {α β : Type} [DecidableEq α]
    (m : List (α × β)) (k : α) (v : β) : mapLookup (mapSet m k v) k = some v := by
  induction m with
  | nil => simp [mapSet, mapLookup]
  | cons e rest ih =>
    obtain ⟨k0, v0⟩ := e
    by_cases h : k0 = k <;> simp [mapSet, mapLookup, h, ih]

theorem mapLookup_mapSet_ne {α β : Type} [DecidableEq α]
    (m : List (α × β)) (k k' : α) (v : β) (h : ¬ k' = k) :
    mapLookup (mapSet m k v) k' = mapLookup m k' := by
  have h' : ¬ k = k' := fun hh => h hh.symm
  induction m with
  | nil => simp [mapSet, mapLookup, h']
  | cons e rest ih =>
    obtain ⟨k0, v0⟩ := e
    by_cases he : k0 = k
    · subst he
      simp [mapSet, mapLookup, h']
    · by_cases he' : k0 = k' <;> simp [mapSet, mapLookup, h, h', he, he', ih]

theorem mapSet_eq_of_lookup {α β : Type} [DecidableEq α]
    (m : List (α × β)) (k : α) (v : β) (h : mapLookup m k = some v) :
    mapSet m k v = m := by
  induction m with
  | nil => simp [mapLookup] at h
  | cons e rest ih =>
    obtain ⟨k0, v0⟩ := e
    by_cases he : k0 = k
    · subst he
      simp [mapLookup] at h
      simp [mapSet, h]
    · simp only [mapLookup, if_neg he] at h
      simp [mapSet, he, ih h]

theorem mapSet_mapSet {α β : Type} [DecidableEq α]
    (m : List (α × β)) (k : α) (v v' : β) :
    mapSet (mapSet m k v) k v' = mapSet m k v' := by
  induction m with
  | nil => simp [mapSet]
  | cons e rest ih =>
    obtain ⟨k0, v0⟩ := e
    by_cases he : k0 = k <;> simp [mapSet, he, ih]

theorem mapLookup_mapDelete_ne {α β : Type} [DecidableEq α]
    (m : List (α × β)) (k k' : α) (h : ¬ k' = k) :
    mapLookup (mapDelete m k) k' = mapLookup m k' := by
  have h' : ¬ k = k' := fun hh => h hh.symm
  induction m with
  | nil => simp [mapDelete]
  | cons e rest ih =>
    obtain ⟨k0, v0⟩ := e
    by_cases he : k0 = k
    · subst he
      simp [mapDelete, mapLookup, h']
    · by_cases he' : k0 = k' <;> simp [mapDelete, mapLookup, h, h', he, he', ih]

theorem mapLookup_eq_none_of_not_mem_keys {α β : Type} [DecidableEq α]
    (m : List (α × β)) (k : α) (h : k ∉ m.map Prod.fst) : mapLookup m k = none := by
  induction m with
  | nil => simp [mapLookup]
  | cons e rest ih =>
    obtain ⟨k0, v0⟩ := e
    simp only [List.map_cons, List.mem_cons] at h
    push_neg at h
    have hk : ¬ k0 = k := fun hh => h.1 hh.symm
    simp [mapLookup, hk, ih h.2]

theorem mapLookup_mapDelete_self {α β : Type} [DecidableEq α]
    (m : List (α × β)) (k : α) (h : keysNodup m) :
    mapLookup (mapDelete m k) k = none := by
  induction m with
  | nil => simp [mapDelete, mapLookup]
  | cons e rest ih =>
    obtain ⟨k0, v0⟩ := e
    simp only [keysNodup, List.map_cons, List.nodup_cons] at h
    by_cases he : k0 = k
    · subst he
      simp only [mapDelete, if_pos rfl]
      exact mapLookup_eq_none_of_not_mem_keys rest k0 h.1
    · simp only [mapDelete, if_neg he, mapLookup, if_neg he]
      exact ih h.2

theorem mapLookup_mem {α β : Type} [DecidableEq α]
    (m : List (α × β)) (k : α) (v : β) (h : mapLookup m k = some v) : (k, v) ∈ m := by
  induction m with
  | nil => simp [mapLookup] at h
  | cons e rest ih =>
    obtain ⟨k0, v0⟩ := e
    by_cases he : k0 = k
    · subst he
      simp [mapLookup] at h
      subst h
      simp
    · simp only [mapLookup, if_neg he] at h
      exact List.mem_cons_of_mem _ (ih h)

theorem mem_mapSet {α β : Type} [DecidableEq α]
    (m : List (α × β)) (k : α) (v : β) (e : α × β) (h : e ∈ mapSet m k v) :
    e ∈ m ∨ e = (k, v) := by
  induction m with
  | nil =>
    simp [mapSet] at h
    exact Or.inr h
  | cons e0 rest ih =>
    obtain ⟨k0, v0⟩ := e0
    by_cases he : k0 = k
    · subst he
      simp only [mapSet, if_pos rfl] at h
      rcases List.mem_cons.1 h with h1 | h1
      · exact Or.inr h1
      · exact Or.inl (List.mem_cons_of_mem _ h1)
    · simp only [mapSet, if_neg he] at h
      rcases List.mem_cons.1 h with h1 | h1
      · exact Or.inl (List.mem_cons.2 (Or.inl h1))
      · rcases ih h1 with h2 | h2
        · exact Or.inl (List.mem_cons_of_mem _ h2)
        · exact Or.inr h2

theorem mem_mapDelete {α β : Type} [DecidableEq α]
    (m : List (α × β)) (k : α) (e : α × β) (h : e ∈ mapDelete m k) : e ∈ m := by
  induction m with
  | nil => simp [mapDelete] at h
  | cons e0 rest ih =>
    obtain ⟨k0, v0⟩ := e0
    by_cases he : k0 = k
    · simp only [mapDelete, if_pos he] at h
      exact List.mem_cons_of_mem _ h
    · simp only [mapDelete, if_neg he] at h
      rcases List.mem_cons.1 h with h1 | h1
      · exact List.mem_cons.2 (Or.inl h1)
      · exact List.mem_cons_of_mem _ (ih h1)

theorem chunkGet_nil {α : Type} (j : Nat) : chunkGet ([] : List (Option α)) j = none := by
  simp [chunkGet]

theorem chunkGet_cons_zero {α : Type} (o : Option α) (l : List (Option α)) :
    chunkGet (o :: l) 0 = o := by
  simp [chunkGet]

theorem chunkGet_cons_succ {α : Type} (o : Option α) (l : List (Option α)) (j : Nat) :
    chunkGet (o :: l) (j + 1) = chunkGet l j := by
  simp [chunkGet]

theorem listSet_length {α : Type} (x : α) :
    ∀ (i : Nat) (l : List (Option α)), (listSet l i x).length = max l.length (i + 1) := by
  intro i
  induction i with
  | zero =>
    intro l
    cases l <;> simp [listSet]
  | succ n ih =>
    intro l
    cases l with
    | nil => simp [listSet, ih []]
    | cons o rest =>
      simp only [listSet, List.length_cons, ih rest]
      rw [Nat.succ_max_succ]

theorem chunkGet_listSet {α : Type} (x : α) :
    ∀ (i : Nat) (l : List (Option α)) (j : Nat),
      chunkGet (listSet l i x) j = if j = i then some x else chunkGet l j := by
  intro i
  induction i with
  | zero =>
    intro l j
    cases l <;> cases j <;>
      simp [listSet, chunkGet_nil, chunkGet_cons_zero, chunkGet_cons_succ]
  | succ n ih =>
    intro l j
    cases l with
    | nil =>
      cases j with
      | zero => simp [listSet, chunkGet_cons_zero, chunkGet_nil]
      | succ m => simp [listSet, chunkGet_cons_succ, ih [], chunkGet_nil]
    | cons o rest =>
      cases j with
      | zero => simp [listSet, chunkGet_cons_zero]
      | succ m => simp [listSet, chunkGet_cons_succ, ih rest]

theorem chunkGet_map_some {α : Type} :
    ∀ (l : List α) (j : Nat), chunkGet (l.map some) j = l.get? j := by
  intro l
  induction l with
  | nil => intro j; simp [chunkGet]
  | cons a rest ih =>
    intro j
    cases j with
    | zero => simp [chunkGet_cons_zero]
    | succ m => simp [chunkGet_cons_succ, ih m]

theorem chunkGet_of_length_le {α : Type} (l : List (Option α)) (j : Nat)
    (h : l.length ≤ j) : chunkGet l j = none := by
  unfold chunkGet
  rw [List.getD_eq_getElem?_getD, List.getElem?_eq_none h]
  rfl

theorem list_eq_of_chunkGet {α : Type} :
    ∀ (l1 l2 : List (Option α)), l1.length = l2.length →
      (∀ j, chunkGet l1 j = chunkGet l2 j) → l1 = l2 := by
  intro l1
  induction l1 with
  | nil =>
    intro l2 hlen _
    cases l2 with
    | nil => rfl
    | cons b r2 => simp at hlen
  | cons a r1 ih =>
    intro l2 hlen h
    cases l2 with
    | nil => simp at hlen
    | cons b r2 =>
      have h0 := h 0
      simp only [chunkGet_cons_zero] at h0
      have htl : r1 = r2 := by
        refine ih r2 (by simpa using hlen) (fun j => ?_)
        have := h (j + 1)
        simpa [chunkGet_cons_succ] using this
      rw [h0, htl]

/-- The transfer record registered by the example trace exState3. -/
def exTransfer : Transfer :=
  ⟨"S", "777777", "f.txt", 10, "text/plain", [], 0, ["R"], 5⟩

/-- Claim C4: a file_chunk call against an unknown transfer id, or
attributed to a connection that is not the transfer's registered sender,
never advances the transfer: the whole state (in particular the chunk
collection, total-chunk count and existence of every transfer) is
unchanged, and the only effect is a transfer_error (Invalid transfer)
notification to the caller; the handler defines no callback
acknowledgement, so none is returned. -/
theorem file_chunk_nonsender_rejected (s : ServerState) (sid : SocketId)
    (tid : TransferId) (i : Nat) (c : Chunk) (b : Bool)
    (h : Option.all (fun t => ! (t.fromId == sid)) (mapLookup s.activeTransfers tid) = true) :
    file_chunk s sid tid i c b
      = (s, [⟨[sid], .transfer_error tid "Invalid transfer"⟩]) := by
  unfold file_chunk
  cases hl : mapLookup s.activeTransfers tid with
  | none => rfl
  | some t =>
    rw [hl] at h
    simp only [Option.all_some, Bool.not_eq_true', beq_eq_false_iff_ne, ne_eq] at h
    simp [h]

/-- Witness for C4 at the example trace: an unknown transfer id and a
non-sender caller (R is a recipient, not the sender) are both rejected
with the state unchanged. -/
theorem file_chunk_nonsender_rejected_witness :
    file_chunk exState3 "R" "T9" 0 [1] true
      = (exState3, [⟨["R"], .transfer_error "T9" "Invalid transfer"⟩]) ∧
    file_chunk exState3 "R" "T1" 0 [1] true
      = (exState3, [⟨["R"], .transfer_error "T1" "Invalid transfer"⟩]) :=
  ⟨file_chunk_nonsender_rejected exState3 "R" "T9" 0 [1] true (by decide),
   file_chunk_nonsender_rejected exState3 "R" "T1" 0 [1] true (by decide)⟩

/-- Claim C7: for an existing transfer, respond_to_file with accept=false
emits transfer_rejected (transfer id, responder's connection id) to the
transfer's registered sender, acknowledges success to the responder, and
leaves the entire state — in particular the active-transfer map — 
unchanged; with an unknown transfer id it fails with Transfer not found. -/
theorem respond_reject_spec (s : ServerState) (sid : SocketId) (tid : TransferId) :
    (∀ t, mapLookup s.activeTransfers tid = some t →
      respond_to_file s sid tid false
        = (s, [⟨[t.fromId], .transfer_rejected tid sid⟩], .ok)) ∧
    (mapLookup s.activeTransfers tid = none →
      respond_to_file s sid tid false = (s, [], .err "Transfer not found")) := by
  constructor
  · intro t ht
    simp [respond_to_file, ht]
  · intro h
    simp [respond_to_file, h]

/-- Witness for C7 at the example trace. -/
theorem respond_reject_spec_witness :
    respond_to_file exState3 "R" "T1" false
      = (exState3, [⟨["S"], .transfer_rejected "T1" "R"⟩], .ok) ∧
    respond_to_file exState3 "R" "T9" false
      = (exState3, [], .err "Transfer not found") :=
  ⟨(respond_reject_spec exState3 "R" "T1").1 exTransfer (by decide),
   (respond_reject_spec exState3 "R" "T9").2 (by decide)⟩

/-- Claim C10: respond_to_file performs no authorization check on the
responder: for every existing transfer and arbitrary connection sid —
including connections outside the snapshotted recipient set, outside the
room, or the sender itself — the call succeeds; accept=true emits
download_ready to sid and accept=false emits transfer_rejected naming
sid to the sender. -/
theorem respond_no_authorization (s : ServerState) (sid : SocketId)
    (tid : TransferId) (t : Transfer)
    (h : mapLookup s.activeTransfers tid = some t) :
    respond_to_file s sid tid true = (s, [⟨[sid], .download_ready tid⟩], .ok) ∧
    respond_to_file s sid tid false
      = (s, [⟨[t.fromId], .transfer_rejected tid sid⟩], .ok) := by
  constructor <;> simp [respond_to_file, h]

/-- Witness for C10 at the example trace: connection X is not a room
member nor a snapshotted recipient, and the sender S itself can respond
to its own transfer. -/
theorem respond_no_authorization_witness :
    (respond_to_file exState3 "X" "T1" true
      = (exState3, [⟨["X"], .download_ready "T1"⟩], .ok)) ∧
    (respond_to_file exState3 "S" "T1" false
      = (exState3, [⟨["S"], .transfer_rejected "T1" "S"⟩], .ok)) :=
  ⟨(respond_no_authorization exState3 "X" "T1" exTransfer (by decide)).1,
   (respond_no_authorization exState3 "S" "T1" exTransfer (by decide)).2⟩

/-- Claim C8: join_room answers Invalid PIN exactly when no live room
holds the code and Already in room exactly when this exact connection is
already listed, with the state unchanged in both error cases; a second
connection carrying an already-present user id is not rejected, and on
success the (connection, user) pair is appended and the acknowledgement
carries the size of the updated unique-user set and whether the caller
is the room's creator. -/
theorem join_room_spec (s : ServerState) (sid : SocketId) (uid : UserId) (pin : Pin) :
    ((join_room s sid uid pin).2.2 = .err "Invalid PIN" ↔ mapLookup s.rooms pin = none) ∧
    (mapLookup s.rooms pin = none →
      join_room s sid uid pin = (s, [], .err "Invalid PIN")) ∧
    (∀ room, mapLookup s.rooms pin = some room →
      (((join_room s sid uid pin).2.2 = .err "Already in room") ↔
        sid ∈ room.participants.map Participant.socketId) ∧
      (sid ∈ room.participants.map Participant.socketId →
        join_room s sid uid pin = (s, [], .err "Already in room")) ∧
      (sid ∉ room.participants.map Participant.socketId →
        join_room s sid uid pin =
          ({ s with
              rooms := mapSet s.rooms pin { room with
                participants := room.participants ++ [⟨sid, uid⟩],
                uniqueUsers := setAdd room.uniqueUsers uid },
              socketRooms := socketJoin s.socketRooms pin sid },
           [⟨roomTargetsExcept (socketJoin s.socketRooms pin sid) pin sid,
              .user_joined sid uid⟩],
           .ok (setAdd room.uniqueUsers uid).length (room.creator == sid)))) := by
  have hmem : ∀ room : Room,
      (room.participants.find? (fun p => p.socketId == sid)).isSome ↔
        sid ∈ room.participants.map Participant.socketId := by
    intro room
    rw [List.find?_isSome]
    constructor
    · rintro ⟨p, hp, hps⟩
      exact List.mem_map.2 ⟨p, hp, by simpa using hps⟩
    · rintro hmem
      rcases List.mem_map.1 hmem with ⟨p, hp, hps⟩
      exact ⟨p, hp, by simp [hps]⟩
  cases hl : mapLookup s.rooms pin with
  | none =>
    refine ⟨by simp [join_room, hl], fun _ => by simp [join_room, hl], ?_⟩
    intro room hr
    exact Option.noConfusion hr
  | some room0 =>
    refine ⟨?_, fun h => Option.noConfusion h, ?_⟩
    · cases hf : room0.participants.find? (fun p => p.socketId == sid) with
      | none => simp [join_room, hl, hf]
      | some p => simp [join_room, hl, hf]
    · intro room hr
      injection hr with hr
      subst hr
      cases hf : room0.participants.find? (fun p => p.socketId == sid) with
      | none =>
        have hno : sid ∉ room0.participants.map Participant.socketId := by
          rw [← hmem room0, hf]
          simp
        refine ⟨by simp [join_room, hl, hf, hno], fun h => absurd h hno, fun _ => ?_⟩
        simp [join_room, hl, hf]
      | some p =>
        have hyes : sid ∈ room0.participants.map Participant.socketId := by
          rw [← hmem room0, hf]
          simp
        refine ⟨by simp [join_room, hl, hf, hyes], fun _ => by simp [join_room, hl, hf],
          fun h => absurd hyes h⟩

/-- Witness for C8 at the example trace: joining a missing room, the
already-listed connection S rejoining, and a second connection R2 that
carries the creator's user id being accepted. -/
theorem join_room_spec_witness :
    join_room exState1 "R" "uR" "000000" = (exState1, [], .err "Invalid PIN") ∧
    join_room exState1 "S" "uS" "777777" = (exState1, [], .err "Already in room") ∧
    join_room exState1 "R2" "uS" "777777" = (exState2b,
      [⟨["S"], .user_joined "R2" "uS"⟩], .ok 1 false) := by
  refine ⟨(join_room_spec exState1 "R" "uR" "000000").2.1 (by decide), ?_, ?_⟩
  · exact ((join_room_spec exState1 "S" "uS" "777777").2.2
      ⟨"S", some "uS", [⟨"S", "uS"⟩], ["uS"], 0⟩ (by decide)).2.1 (by decide)
  · refine Eq.trans (((join_room_spec exState1 "R2" "uS" "777777").2.2
      ⟨"S", some "uS", [⟨"S", "uS"⟩], ["uS"], 0⟩ (by decide)).2.2 (by decide)) (by decide)

theorem removeParticipant_participants (sid : SocketId) (room room' : Room)
    (uid : UserId) (h : removeParticipant sid room = some (room', uid)) :
    room'.participants = room.participants.filter (fun p => ! (p.socketId == sid)) := by
  cases hf : room.participants.find? (fun p => p.socketId == sid) with
  | none => simp [removeParticipant, hf] at h
  | some part =>
    simp only [removeParticipant, hf, Option.some.injEq, Prod.mk.injEq] at h
    rw [← h.1]

theorem removeParticipant_after (sid : SocketId) (room room' : Room) (uid : UserId)
    (h : removeParticipant sid room = some (room', uid)) :
    removeParticipant sid room' = none := by
  have hp := removeParticipant_participants sid room room' uid h
  have hf : room'.participants.find? (fun p => p.socketId == sid) = none := by
    rw [List.find?_eq_none]
    intro p hp2
    rw [hp] at hp2
    have := List.of_mem_filter hp2
    simpa using this
  simp [removeParticipant, hf]

instance keysNodupDecidable {α β : Type} [DecidableEq α] (m : List (α × β)) :
    Decidable (keysNodup m) := by
  unfold keysNodup
  infer_instance

theorem leave_room_noop (s : ServerState) (sid : SocketId) (pin : Pin)
    (h : ∀ room, mapLookup s.rooms pin = some room → removeParticipant sid room = none) :
    leave_room s sid pin = (s, []) := by
  unfold leave_room
  cases hl : mapLookup s.rooms pin with
  | none => rfl
  | some room => simp [h room hl]

/-- Claim C9: leave_room is idempotent: on a registry with unique room
keys, a second identical leave_room call leaves the state of the first
call fixed and emits nothing, so two calls have the same observable
effect as one (the second call is a no-op whether the room was deleted,
the participant is gone, or the room never existed). -/
theorem leave_room_idempotent (s : ServerState) (sid : SocketId) (pin : Pin)
    (h : keysNodup s.rooms) :
    leave_room (leave_room s sid pin).1 sid pin = ((leave_room s sid pin).1, []) := by
  apply leave_room_noop
  cases hl : mapLookup s.rooms pin with
  | none =>
    have h1 : leave_room s sid pin = (s, []) := by simp [leave_room, hl]
    rw [h1]
    intro room hr
    rw [hl] at hr
    cases hr
  | some room =>
    cases hrp : removeParticipant sid room with
    | none =>
      have h1 : leave_room s sid pin = (s, []) := by simp [leave_room, hl, hrp]
      rw [h1]
      intro room2 hr
      rw [hl] at hr
      injection hr with hr
      subst hr
      exact hrp
    | some r =>
      obtain ⟨room', uid⟩ := r
      by_cases hemp : room'.participants.length = 0
      · have h2 : mapLookup (leave_room s sid pin).1.rooms pin = none := by
          simp [leave_room, hl, hrp, hemp, mapLookup_mapDelete_self s.rooms pin h]
        intro room2 hr
        rw [h2] at hr
        cases hr
      · have h2 : mapLookup (leave_room s sid pin).1.rooms pin = some room' := by
          simp [leave_room, hl, hrp, hemp, mapLookup_mapSet_self]
        intro room2 hr
        rw [h2] at hr
        injection hr with hr
        subst hr
        exact removeParticipant_after sid room room' uid hrp

/-- Witness for C9 at the example trace: R leaves room 777777 once; the
second leave is a no-op on the resulting state. -/
theorem leave_room_idempotent_witness :
    leave_room (leave_room exState3 "R" "777777").1 "R" "777777"
      = ((leave_room exState3 "R" "777777").1, []) :=
  leave_room_idempotent exState3 "R" "777777" (by decide)

theorem initiate_rooms_unchanged (s : ServerState) (sid : SocketId) (pin : Pin)
    (fileName : String) (fileSize : Nat) (fileType : String) (tid : TransferId)
    (now : Nat) :
    (initiate_file_transfer s sid pin fileName fileSize fileType tid now).1.rooms
      = s.rooms := by
  unfold initiate_file_transfer
  split
  · rfl
  · simp only []
    split <;> rfl

theorem file_chunk_rooms_unchanged (s : ServerState) (sid : SocketId)
    (tid : TransferId) (i : Nat) (c : Chunk) (b : Bool) :
    (file_chunk s sid tid i c b).1.rooms = s.rooms := by
  unfold file_chunk
  split
  · rfl
  · split
    · simp only []
      split <;> first | rfl | (split <;> first | rfl | (split <;> rfl))
    · rfl

theorem respond_state_unchanged (s : ServerState) (sid : SocketId)
    (tid : TransferId) (a : Bool) : (respond_to_file s sid tid a).1 = s := by
  unfold respond_to_file
  split
  · rfl
  · split
    · rfl
    · rfl

theorem mem_disconnectRooms (sid : SocketId) (sr : List (Pin × List SocketId)) :
    ∀ (l : List (Pin × Room)) (e : Pin × Room), e ∈ (disconnectRooms sid sr l).1 →
      e ∈ l ∨ ∃ pin room room' uid, (pin, room) ∈ l ∧
        removeParticipant sid room = some (room', uid) ∧
        ¬ room'.participants.length = 0 ∧ e = (pin, room') := by
  intro l
  induction l with
  | nil =>
    intro e he
    simp [disconnectRooms] at he
  | cons hd rest ih =>
    obtain ⟨pin0, room0⟩ := hd
    intro e he
    simp only [disconnectRooms] at he
    cases hrp : removeParticipant sid room0 with
    | none =>
      rw [hrp] at he
      rcases List.mem_cons.1 he with h1 | h1
      · exact Or.inl (List.mem_cons.2 (Or.inl h1))
      · rcases ih e h1 with h2 | ⟨pin, room, room', uid, hm, hr, hn, he2⟩
        · exact Or.inl (List.mem_cons_of_mem _ h2)
        · exact Or.inr ⟨pin, room, room', uid, List.mem_cons_of_mem _ hm, hr, hn, he2⟩
    | some r =>
      obtain ⟨room', uid⟩ := r
      rw [hrp] at he
      simp only [] at he
      by_cases hemp : room'.participants.length = 0
      · rw [if_pos hemp] at he
        rcases ih e he with h2 | ⟨pin, room, room2, uid2, hm, hr, hn, he2⟩
        · exact Or.inl (List.mem_cons_of_mem _ h2)
        · exact Or.inr ⟨pin, room, room2, uid2, List.mem_cons_of_mem _ hm, hr, hn, he2⟩
      · rw [if_neg hemp] at he
        rcases List.mem_cons.1 he with h1 | h1
        · exact Or.inr ⟨pin0, room0, room', uid, List.mem_cons_self _ _, hrp, hemp, h1⟩
        · rcases ih e h1 with h2 | ⟨pin, room, room2, uid2, hm, hr, hn, he2⟩
          · exact Or.inl (List.mem_cons_of_mem _ h2)
          · exact Or.inr ⟨pin, room, room2, uid2, List.mem_cons_of_mem _ hm, hr, hn, he2⟩

theorem sockStep_preserves_noEmpty (s s' : ServerState) (hstep : SockStep s s')
    (h : ∀ e ∈ s.rooms, ¬ e.2.participants = []) :
    ∀ e ∈ s'.rooms, ¬ e.2.participants = [] := by
  cases hstep with
  | create sid uid pin now hfresh =>
    intro e he
    simp only [create_room] at he
    rcases mem_mapSet _ _ _ e he with h1 | h1
    · exact h e h1
    · rw [h1]
      simp
  | join sid uid pin =>
    intro e he
    cases hl : mapLookup s.rooms pin with
    | none =>
      simp only [join_room, hl] at he
      exact h e he
    | some room =>
      cases hf : room.participants.find? (fun p => p.socketId == sid) with
      | some p =>
        simp only [join_room, hl, hf] at he
        exact h e he
      | none =>
        simp only [join_room, hl, hf] at he
        rcases mem_mapSet _ _ _ e he with h1 | h1
        · exact h e h1
        · rw [h1]
          simp
  | leave sid pin =>
    intro e he
    cases hl : mapLookup s.rooms pin with
    | none =>
      simp only [leave_room, hl] at he
      exact h e he
    | some room =>
      cases hrp : removeParticipant sid room with
      | none =>
        simp only [leave_room, hl, hrp] at he
        exact h e he
      | some r =>
        obtain ⟨room', uid⟩ := r
        by_cases hemp : room'.participants = []
        · simp [leave_room, hl, hrp, hemp] at he
          exact h e (mem_mapDelete _ _ _ he)
        · simp [leave_room, hl, hrp, hemp] at he
          rcases mem_mapSet _ _ _ e he with h1 | h1
          · exact h e h1
          · rw [h1]
            exact hemp
  | initiate sid pin fileName fileSize fileType tid now =>
    intro e he
    rw [initiate_rooms_unchanged] at he
    exact h e he
  | chunk sid tid i c b =>
    intro e he
    rw [file_chunk_rooms_unchanged] at he
    exact h e he
  | respond sid tid a =>
    intro e he
    rw [respond_state_unchanged] at he
    exact h e he
  | disc sid =>
    intro e he
    have he' : e ∈ (disconnectRooms sid (socketLeaveAll s.socketRooms sid) s.rooms).1 := he
    rcases mem_disconnectRooms sid _ s.rooms e he' with h1 | ⟨pin, room, room', uid, hm, hr, hn, he2⟩
    · exact h e h1
    · rw [he2]
      intro hh
      apply hn
      rw [hh]
      rfl
  | sweep now =>
    intro e he
    simp only [cleanupExpiredRooms] at he
    exact h e (List.mem_of_mem_filter he)

/-- Claim C2 counterexample: the claimed invariant fails on the code as
stated — the HTTP room-creation endpoint POST /api/room inserts a room
with an empty participants list, so a reachable state holds a room with
zero (connection, user) pairs. -/
theorem api_room_empty_participants :
    Reachable (api_create_room initialState "123456" 0) ∧
    mapLookup (api_create_room initialState "123456" 0).rooms "123456"
      = some ⟨"web-api", none, [], [], 0⟩ ∧
    (Room.mk "web-api" none [] [] 0).participants = [] :=
  ⟨Relation.ReflTransGen.single (Step.apiCreate initialState "123456" 0 rfl),
   by decide, rfl⟩

/-- Claim C2 (amended): over the socket-event reactions alone — room
creation via create_room, join, leave, transfers, disconnect and the
sweep, excluding the out-of-band POST /api/room endpoint which creates a
zero-participant room — every reachable state is free of empty rooms:
create_room inserts its creator, and leave_room and disconnect delete a
room synchronously in the same reaction that removes its last
participant. -/
theorem no_empty_room_sock_reachable (s : ServerState) (h : ReachableSock s) :
    ∀ e ∈ s.rooms, ¬ e.2.participants = [] := by
  induction h with
  | refl =>
    intro e he
    simp [initialState] at he
  | tail hab hbc ih => exact sockStep_preserves_noEmpty _ _ hbc ih

/-- Witness for the amended C2: the state after one create_room is
reachable without the HTTP endpoint and its room is non-empty. -/
theorem no_empty_room_sock_reachable_witness :
    ¬ (Room.mk "S" (some "uS") [⟨"S", "uS"⟩] ["uS"] 0).participants = [] :=
  no_empty_room_sock_reachable exState1
    (Relation.ReflTransGen.single (SockStep.create initialState "S" "uS" "777777" 0 rfl))
    ("777777", ⟨"S", some "uS", [⟨"S", "uS"⟩], ["uS"], 0⟩) (by decide)

/-- Well-formedness of a room as maintained by the handlers: participant
socket ids are pairwise distinct (join_room suppresses duplicates), the
uniqueUsers set is duplicate-free, and it holds exactly the user ids
that own at least one current participant connection. -/
def RoomWF (room : Room) : Prop :=
  (room.participants.map Participant.socketId).Nodup ∧
  room.uniqueUsers.Nodup ∧
  ∀ u, u ∈ room.uniqueUsers ↔ u ∈ room.participants.map Participant.userId

theorem setAdd_nodup (l : List UserId) (u : UserId) (h : l.Nodup) :
    (setAdd l u).Nodup := by
  unfold setAdd
  split_ifs with hm
  · exact h
  · simp [List.nodup_append, h, hm]

theorem mem_setAdd (l : List UserId) (u v : UserId) :
    v ∈ setAdd l u ↔ v ∈ l ∨ v = u := by
  unfold setAdd
  split_ifs with hm
  · constructor
    · exact Or.inl
    · rintro (h1 | h1)
      · exact h1
      · exact h1 ▸ hm
  · simp [List.mem_append]

theorem removeParticipant_eq (sid : SocketId) (room room' : Room) (uid : UserId)
    (h : removeParticipant sid room = some (room', uid)) :
    ∃ part, room.participants.find? (fun p => p.socketId == sid) = some part ∧
      uid = part.userId ∧
      room' = { room with
        participants := room.participants.filter (fun p => ! (p.socketId == sid)),
        uniqueUsers :=
          if (room.participants.filter (fun p => ! (p.socketId == sid))).any
              (fun p => p.userId == part.userId)
          then room.uniqueUsers
          else room.uniqueUsers.filter (fun u => ! (u == part.userId)) } := by
  cases hf : room.participants.find? (fun p => p.socketId == sid) with
  | none => simp [removeParticipant, hf] at h
  | some part =>
    simp only [removeParticipant, hf, Option.some.injEq, Prod.mk.injEq] at h
    exact ⟨part, rfl, h.2.symm, h.1.symm⟩

theorem removeParticipant_WF (sid : SocketId) (room room' : Room) (uid : UserId)
    (hW : RoomWF room) (h : removeParticipant sid room = some (room', uid)) :
    RoomWF room' := by
  obtain ⟨hnd, hund, hiff⟩ := hW
  obtain ⟨part, hf, huid, hroom⟩ := removeParticipant_eq sid room room' uid h
  have hpart_mem : part ∈ room.participants := List.mem_of_find?_eq_some hf
  have hpsid : part.socketId = sid := by
    have := List.find?_some hf
    simpa using this
  have hA : ∀ p ∈ room.participants, p.socketId = sid → p = part := by
    intro p hp hps
    exact List.inj_on_of_nodup_map hnd hp hpart_mem (hps.trans hpsid.symm)
  subst hroom
  refine ⟨?_, ?_, ?_⟩
  · exact List.Nodup.sublist ((List.filter_sublist _).map Participant.socketId) hnd
  · dsimp only
    split_ifs with hany
    · exact hund
    · exact hund.filter _
  · intro u
    dsimp only
    split_ifs with hany
    · rw [List.any_eq_true] at hany
      obtain ⟨q, hq, hqu⟩ := hany
      rw [beq_iff_eq] at hqu
      constructor
      · intro hu
        rcases List.mem_map.1 ((hiff u).1 hu) with ⟨p, hp, hpu⟩
        by_cases hps : p.socketId = sid
        · have : p = part := hA p hp hps
          subst this
          exact List.mem_map.2 ⟨q, hq, by rw [hqu, ← hpu]⟩
        · refine List.mem_map.2 ⟨p, List.mem_filter.2 ⟨hp, by simpa using hps⟩, hpu⟩
      · intro hu
        rcases List.mem_map.1 hu with ⟨p, hp, hpu⟩
        exact (hiff u).2 (List.mem_map.2 ⟨p, List.mem_of_mem_filter hp, hpu⟩)
    · simp only [Bool.not_eq_true, List.any_eq_false] at hany
      constructor
      · intro hu
        rcases List.mem_filter.1 hu with ⟨hu1, hu2⟩
        have hne : ¬ u = part.userId := by simpa using hu2
        rcases List.mem_map.1 ((hiff u).1 hu1) with ⟨p, hp, hpu⟩
        by_cases hps : p.socketId = sid
        · exact absurd (by rw [← hpu, hA p hp hps]) hne
        · exact List.mem_map.2 ⟨p, List.mem_filter.2 ⟨hp, by simpa using hps⟩, hpu⟩
      · intro hu
        rcases List.mem_map.1 hu with ⟨p, hp, hpu⟩
        have hu1 : u ∈ room.uniqueUsers :=
          (hiff u).2 (List.mem_map.2 ⟨p, List.mem_of_mem_filter hp, hpu⟩)
        have hne : ¬ u = part.userId := by
          intro hh
          have h2 := hany p hp
          simp only [beq_eq_false_iff_ne, ne_eq] at h2
          exact h2 (hpu.trans hh)
        exact List.mem_filter.2 ⟨hu1, by simpa using hne⟩

theorem joined_room_WF (room : Room) (sid : SocketId) (uid : UserId)
    (hW : RoomWF room)
    (hf : room.participants.find? (fun p => p.socketId == sid) = none) :
    RoomWF { room with
      participants := room.participants ++ [⟨sid, uid⟩],
      uniqueUsers := setAdd room.uniqueUsers uid } := by
  obtain ⟨hnd, hund, hiff⟩ := hW
  have hnot : sid ∉ room.participants.map Participant.socketId := by
    rw [List.find?_eq_none] at hf
    intro hmem
    rcases List.mem_map.1 hmem with ⟨p, hp, hps⟩
    exact (hf p hp) (by simp [hps])
  refine ⟨?_, setAdd_nodup _ _ hund, ?_⟩
  · dsimp only
    rw [List.map_append]
    simp [List.nodup_append, hnd, hnot]
  · intro u
    dsimp only
    rw [mem_setAdd, hiff u, List.map_append]
    simp

theorem step_preserves_WF (s s' : ServerState) (hstep : Step s s')
    (h : ∀ e ∈ s.rooms, RoomWF e.2) : ∀ e ∈ s'.rooms, RoomWF e.2 := by
  cases hstep with
  | create sid uid pin now hfresh =>
    intro e he
    simp only [create_room] at he
    rcases mem_mapSet _ _ _ e he with h1 | h1
    · exact h e h1
    · rw [h1]
      exact ⟨by simp, by simp, by simp⟩
  | apiCreate pin now hfresh =>
    intro e he
    simp only [api_create_room] at he
    rcases mem_mapSet _ _ _ e he with h1 | h1
    · exact h e h1
    · rw [h1]
      exact ⟨by simp, by simp, by simp⟩
  | join sid uid pin =>
    intro e he
    cases hl : mapLookup s.rooms pin with
    | none =>
      simp only [join_room, hl] at he
      exact h e he
    | some room =>
      cases hf : room.participants.find? (fun p => p.socketId == sid) with
      | some p =>
        simp only [join_room, hl, hf] at he
        exact h e he
      | none =>
        simp only [join_room, hl, hf] at he
        rcases mem_mapSet _ _ _ e he with h1 | h1
        · exact h e h1
        · rw [h1]
          exact joined_room_WF room sid uid (h _ (mapLookup_mem _ _ _ hl)) hf
  | leave sid pin =>
    intro e he
    cases hl : mapLookup s.rooms pin with
    | none =>
      simp only [leave_room, hl] at he
      exact h e he
    | some room =>
      cases hrp : removeParticipant sid room with
      | none =>
        simp only [leave_room, hl, hrp] at he
        exact h e he
      | some r =>
        obtain ⟨room', uid⟩ := r
        by_cases hemp : room'.participants = []
        · simp [leave_room, hl, hrp, hemp] at he
          exact h e (mem_mapDelete _ _ _ he)
        · simp [leave_room, hl, hrp, hemp] at he
          rcases mem_mapSet _ _ _ e he with h1 | h1
          · exact h e h1
          · rw [h1]
            exact removeParticipant_WF sid room room' uid
              (h _ (mapLookup_mem _ _ _ hl)) hrp
  | initiate sid pin fileName fileSize fileType tid now =>
    intro e he
    rw [initiate_rooms_unchanged] at he
    exact h e he
  | chunk sid tid i c b =>
    intro e he
    rw [file_chunk_rooms_unchanged] at he
    exact h e he
  | respond sid tid a =>
    intro e he
    rw [respond_state_unchanged] at he
    exact h e he
  | disc sid =>
    intro e he
    have he' : e ∈ (disconnectRooms sid (socketLeaveAll s.socketRooms sid) s.rooms).1 := he
    rcases mem_disconnectRooms sid _ s.rooms e he'
      with h1 | ⟨pin, room, room', uid, hm, hr, hn, he2⟩
    · exact h e h1
    · rw [he2]
      exact removeParticipant_WF sid room room' uid (h _ hm) hr
  | sweep now =>
    intro e he
    simp only [cleanupExpiredRooms] at he
    exact h e (List.mem_of_mem_filter he)

theorem reachable_RoomWF (s : ServerState) (h : Reachable s) :
    ∀ e ∈ s.rooms, RoomWF e.2 := by
  induction h with
  | refl =>
    intro e he
    simp [initialState] at he
  | tail hab hbc ih => exact step_preserves_WF _ _ hbc ih

/-- Claim C5: in every reachable state (so after every sequence of
joins and leaves, disconnect-driven leaves included), the participants
value reported by get_room_info for a live room equals the number of
distinct user identities among the room's currently-active connections:
connections sharing a user id count once, and a user stays counted until
the last of their connections leaves. -/
theorem get_room_info_distinct_count (s : ServerState) (hs : Reachable s)
    (pin : Pin) (room : Room) (sid : SocketId)
    (h : mapLookup s.rooms pin = some room) :
    get_room_info s sid pin =
      .ok ((room.participants.map Participant.userId).toFinset.card)
        (room.creator == sid) room.createdAt := by
  obtain ⟨hnd, hund, hiff⟩ := reachable_RoomWF s hs (pin, room) (mapLookup_mem _ _ _ h)
  have hcard : room.uniqueUsers.length
      = (room.participants.map Participant.userId).toFinset.card := by
    have h1 : room.uniqueUsers.toFinset
        = (room.participants.map Participant.userId).toFinset := by
      apply Finset.ext
      intro u
      simp only [List.mem_toFinset]
      exact hiff u
    rw [← List.toFinset_card_of_nodup hund, h1]
  unfold get_room_info
  rw [h]
  simp only []
  rw [hcard]

/-- Witness for C5: after create (user uS) and a second connection R2
joining with the same user id uS, the reported count is 1, not 2. -/
theorem get_room_info_distinct_count_witness :
    get_room_info exState2b "S" "777777" = .ok 1 true 0 := by
  have hr : Reachable exState2b :=
    Relation.ReflTransGen.tail
      (Relation.ReflTransGen.single (Step.create initialState "S" "uS" "777777" 0 rfl))
      (Step.join exState1 "R2" "uS" "777777")
  have := get_room_info_distinct_count exState2b hr "777777"
    ⟨"S", some "uS", [⟨"S", "uS"⟩, ⟨"R2", "uS"⟩], ["uS"], 0⟩ "S" (by decide)
  rw [this]
  decide

/-- The per-room effect of removing one connection, shared by leave_room
and the disconnect room loop: untouched when the connection is not a
participant, deleted when the removal empties the room, updated
otherwise. -/
def leaveRoomEffect (sid : SocketId) (room : Room) : Option Room :=
  match removeParticipant sid room with
  | none => some room
  | some (room', _) => if room'.participants.length = 0 then none else some room'

theorem keys_disconnectRooms_subset (sid : SocketId) (sr : List (Pin × List SocketId)) :
    ∀ (l : List (Pin × Room)) (k : Pin),
      k ∈ (disconnectRooms sid sr l).1.map Prod.fst → k ∈ l.map Prod.fst := by
  intro l
  induction l with
  | nil =>
    intro k hk
    simp [disconnectRooms] at hk
  | cons hd rest ih =>
    obtain ⟨pin0, room0⟩ := hd
    intro k hk
    simp only [disconnectRooms] at hk
    cases hrp : removeParticipant sid room0 with
    | none =>
      rw [hrp] at hk
      rcases List.mem_map.1 hk with ⟨e, he, hek⟩
      rcases List.mem_cons.1 he with h1 | h1
      · rw [h1] at hek
        simp [← hek]
      · exact List.mem_cons_of_mem _ (ih k (List.mem_map.2 ⟨e, h1, hek⟩))
    | some r =>
      obtain ⟨room', uid⟩ := r
      rw [hrp] at hk
      simp only [] at hk
      by_cases hemp : room'.participants.length = 0
      · rw [if_pos hemp] at hk
        exact List.mem_cons_of_mem _ (ih k hk)
      · rw [if_neg hemp] at hk
        rcases List.mem_map.1 hk with ⟨e, he, hek⟩
        rcases List.mem_cons.1 he with h1 | h1
        · rw [h1] at hek
          simp [← hek]
        · exact List.mem_cons_of_mem _ (ih k (List.mem_map.2 ⟨e, h1, hek⟩))

theorem disconnectRooms_lookup (sid : SocketId) (sr : List (Pin × List SocketId)) :
    ∀ (l : List (Pin × Room)), keysNodup l → ∀ pin,
      mapLookup (disconnectRooms sid sr l).1 pin
        = (mapLookup l pin).bind (leaveRoomEffect sid) := by
  intro l
  induction l with
  | nil =>
    intro _ pin
    simp [disconnectRooms, mapLookup]
  | cons hd rest ih =>
    obtain ⟨pin0, room0⟩ := hd
    intro hnd pin
    simp only [keysNodup, List.map_cons, List.nodup_cons] at hnd
    simp only [disconnectRooms]
    cases hrp : removeParticipant sid room0 with
    | none =>
      by_cases hp : pin0 = pin
      · subst hp
        simp [mapLookup, leaveRoomEffect, hrp]
      · simp only [mapLookup, if_neg hp]
        exact ih hnd.2 pin
    | some r =>
      obtain ⟨room', uid⟩ := r
      simp only []
      by_cases hemp : room'.participants.length = 0
      · rw [if_pos hemp]
        by_cases hp : pin0 = pin
        · subst hp
          have hnone : mapLookup (disconnectRooms sid sr rest).1 pin0 = none := by
            apply mapLookup_eq_none_of_not_mem_keys
            intro hmem
            exact hnd.1 (keys_disconnectRooms_subset sid sr rest pin0 hmem)
          rw [hnone]
          simp [mapLookup, leaveRoomEffect, hrp, hemp, List.length_eq_zero.1 hemp]
        · rw [ih hnd.2 pin]
          simp [mapLookup, if_neg hp]
      · rw [if_neg hemp]
        by_cases hp : pin0 = pin
        · subst hp
          simp [mapLookup, leaveRoomEffect, hrp, hemp]
          intro hh
          exact hemp (by rw [hh]; rfl)
        · simp only [mapLookup, if_neg hp]
          exact ih hnd.2 pin

theorem leave_room_lookup (s : ServerState) (sid : SocketId) (pin : Pin)
    (h : keysNodup s.rooms) :
    mapLookup (leave_room s sid pin).1.rooms pin
      = (mapLookup s.rooms pin).bind (leaveRoomEffect sid) := by
  cases hl : mapLookup s.rooms pin with
  | none => simp [leave_room, hl]
  | some room =>
    cases hrp : removeParticipant sid room with
    | none => simp [leave_room, leaveRoomEffect, hl, hrp]
    | some r =>
      obtain ⟨room', uid⟩ := r
      by_cases hemp : room'.participants.length = 0
      · simp [leave_room, leaveRoomEffect, hl, hrp, hemp,
          mapLookup_mapDelete_self s.rooms pin h, List.length_eq_zero.1 hemp]
      · simp [leave_room, leaveRoomEffect, hl, hrp, hemp, mapLookup_mapSet_self]
        intro hh
        exact hemp (by rw [hh]; rfl)

theorem disconnectRooms_events_user_left (sid : SocketId)
    (sr : List (Pin × List SocketId)) :
    ∀ (l : List (Pin × Room)), ∀ e ∈ (disconnectRooms sid sr l).2,
      ∃ tg uid, e = Emit.mk tg (.user_left sid uid) := by
  intro l
  induction l with
  | nil =>
    intro e he
    simp [disconnectRooms] at he
  | cons hd rest ih =>
    obtain ⟨pin0, room0⟩ := hd
    intro e he
    simp only [disconnectRooms] at he
    cases hrp : removeParticipant sid room0 with
    | none =>
      rw [hrp] at he
      exact ih e he
    | some r =>
      obtain ⟨room', uid⟩ := r
      rw [hrp] at he
      simp only [] at he
      by_cases hemp : room'.participants.length = 0
      · rw [if_pos hemp] at he
        rcases List.mem_cons.1 he with h1 | h1
        · exact ⟨_, uid, h1⟩
        · exact ih e h1
      · rw [if_neg hemp] at he
        rcases List.mem_cons.1 he with h1 | h1
        · exact ⟨_, uid, h1⟩
        · exact ih e h1

/-- Claim C6: the disconnect handler first removes the connection from
every room it appears in, with the same per-room registry effect as
leave_room at that room's pin (scanning all rooms), and only afterwards
deletes every transfer whose sender is the connection, appending one
transfer_cancelled emission per such transfer addressed to that
transfer's room — all user_left emissions strictly precede all
transfer_cancelled emissions. -/
theorem disconnect_rooms_then_transfers (s : ServerState) (sid : SocketId)
    (h : keysNodup s.rooms) :
    (∀ pin, mapLookup (disconnect s sid).1.rooms pin
        = mapLookup (leave_room s sid pin).1.rooms pin) ∧
    (disconnect s sid).1.activeTransfers
      = s.activeTransfers.filter (fun e => ! (e.2.fromId == sid)) ∧
    ∃ roomEvents,
      (disconnect s sid).2 = roomEvents
          ++ (s.activeTransfers.filter (fun e => e.2.fromId == sid)).map
              (fun e => Emit.mk
                (socketRoomMembers (socketLeaveAll s.socketRooms sid) e.2.pin)
                (.transfer_cancelled e.1)) ∧
      ∀ e ∈ roomEvents, ∃ tg uid, e = Emit.mk tg (.user_left sid uid) := by
  refine ⟨?_, rfl, ?_⟩
  · intro pin
    have h1 : mapLookup (disconnect s sid).1.rooms pin
        = (mapLookup s.rooms pin).bind (leaveRoomEffect sid) :=
      disconnectRooms_lookup sid (socketLeaveAll s.socketRooms sid) s.rooms h pin
    rw [h1, leave_room_lookup s sid pin h]
  · exact ⟨(disconnectRooms sid (socketLeaveAll s.socketRooms sid) s.rooms).2, rfl,
      disconnectRooms_events_user_left sid _ s.rooms⟩

/-- Witness for C6 at the example trace: S disconnects while being a
room member with a pending outgoing transfer. -/
theorem disconnect_rooms_then_transfers_witness :
    mapLookup (disconnect exState3 "S").1.rooms "777777"
      = mapLookup (leave_room exState3 "S" "777777").1.rooms "777777" ∧
    (disconnect exState3 "S").1.activeTransfers = [] :=
  ⟨(disconnect_rooms_then_transfers exState3 "S" (by decide)).1 "777777",
   Eq.trans (disconnect_rooms_then_transfers exState3 "S" (by decide)).2.1 (by decide)⟩

theorem jsRoundPercent_self (n : Nat) (h : 0 < n) : jsRoundPercent n n = 100 := by
  unfold jsRoundPercent
  have h2 : 0 < 2 * n := by omega
  calc (200 * n + n) / (2 * n)
      = (n + 2 * n * 100) / (2 * n) := by ring_nf
    _ = n / (2 * n) + 100 := Nat.add_mul_div_left n 100 h2
    _ = 0 + 100 := by rw [Nat.div_eq_of_lt (by omega)]
    _ = 100 := rfl

theorem all_isSome_of_filterMap_length {α : Type} :
    ∀ (l : List (Option α)), (l.filterMap id).length = l.length →
      l.all (fun o => o.isSome) = true := by
  intro l
  induction l with
  | nil => simp
  | cons o rest ih =>
    cases o with
    | some a =>
      intro h
      simp only [List.filterMap_cons, id, List.length_cons] at h
      simp only [List.all_cons, Option.isSome_some, Bool.true_and]
      exact ih (by omega)
    | none =>
      intro h
      exfalso
      simp only [List.filterMap_cons, id, List.length_cons] at h
      have hle := List.length_filterMap_le id rest
      omega

/-- With the stored prefix no longer than the final index, a full count
of populated entries forces the chunk array to be dense, so
Buffer.concat succeeds. -/
theorem listSet_dense {α : Type} (l : List (Option α)) (i : Nat) (c : α)
    (hlen : l.length ≤ i + 1)
    (hcomp : ((listSet l i c).filterMap id).length = i + 1) :
    (listSet l i c).all (fun o => o.isSome) = true := by
  have hL : (listSet l i c).length = i + 1 := by
    rw [listSet_length]
    omega
  exact all_isSome_of_filterMap_length _ (by rw [hcomp, hL])

/-- Claim C3 counterexample: the delivery set of file_received is not the
recipient set snapshotted at initiation.  In the trace create(S) →
join(R) → initiate (snapshot [R]) → leave(R) → join(T) → final chunk,
the snapshot is [R] but the file is delivered to [T]: the member who
joined after initiation receives it and the snapshotted recipient does
not. -/
theorem file_received_not_snapshot :
    mapLookup exState5.activeTransfers "T1" = some exTransfer ∧
    exTransfer.recipients = ["R"] ∧
    (file_chunk exState5 "S" "T1" 0 [9] true).2
      = [⟨["S"], .upload_progress "T1" 100⟩,
         ⟨["T"], .file_received "T1" "f.txt" "text/plain" [9] "S"⟩,
         ⟨["S"], .transfer_complete "T1"⟩] ∧
    (["T"] : List SocketId) ≠ ["R"] := by
  refine ⟨by decide, by decide, by decide, by decide⟩

/-- Claim C3 (amended): on completion, file_chunk delivers the assembled
file to the transfer room's current transport members except the sender
(socket.to(transfer.pin)); the snapshotted recipients field is stored at
initiation but never consulted for delivery, so joins and leaves between
initiation and completion do change the delivery set. -/
theorem file_received_current_members (s : ServerState) (sid : SocketId)
    (tid : TransferId) (t : Transfer) (i : Nat) (c : Chunk)
    (ht : mapLookup s.activeTransfers tid = some t) (hfrom : t.fromId = sid)
    (hlen : t.chunks.length ≤ i + 1)
    (hcomp : ((listSet t.chunks i c).filterMap id).length = i + 1) :
    (file_chunk s sid tid i c true).2
      = [⟨[sid], .upload_progress tid 100⟩,
         ⟨roomTargetsExcept s.socketRooms t.pin sid,
           .file_received tid t.fileName t.fileType
             (((listSet t.chunks i c).map (fun o => o.getD [])).flatten) sid⟩,
         ⟨[sid], .transfer_complete tid⟩] := by
  have hdense := listSet_dense t.chunks i c hlen hcomp
  unfold file_chunk
  rw [ht]
  simp only [if_pos hfrom, if_true, hcomp, hdense]
  rw [if_neg (Nat.succ_ne_zero i), jsRoundPercent_self (i + 1) (Nat.succ_pos i),
    if_pos ⟨trivial, trivial⟩]

/-- Witness for the amended C3: the concrete completion of the trace
behind the counterexample, delivered to the current member T. -/
theorem file_received_current_members_witness :
    (file_chunk exState5 "S" "T1" 0 [9] true).2
      = [⟨["S"], .upload_progress "T1" 100⟩,
         ⟨["T"], .file_received "T1" "f.txt" "text/plain" [9] "S"⟩,
         ⟨["S"], .transfer_complete "T1"⟩] :=
  Eq.trans
    (file_received_current_members exState5 "S" "T1" exTransfer 0 [9]
      (by decide) rfl (by decide) (by decide))
    (by decide)

theorem chunkGet_map_some_lt {α : Type} :
    ∀ (l : List α) (d : α) (j : Nat), j < l.length →
      chunkGet (l.map some) j = some (l.getD j d) := by
  intro l
  induction l with
  | nil =>
    intro d j h
    simp at h
  | cons a rest ih =>
    intro d j h
    cases j with
    | zero => simp [chunkGet_cons_zero]
    | succ m =>
      simp only [List.map_cons, chunkGet_cons_succ, List.getD_cons_succ]
      exact ih d m (by simpa using h)

theorem runChunks_append (sid : SocketId) (tid : TransferId) (chunkList : List Chunk) :
    ∀ (l1 l2 : List Nat) (s : ServerState),
      runChunks sid tid chunkList s (l1 ++ l2)
        = ((runChunks sid tid chunkList
              (runChunks sid tid chunkList s l1).1 l2).1,
           (runChunks sid tid chunkList s l1).2
             ++ (runChunks sid tid chunkList
                  (runChunks sid tid chunkList s l1).1 l2).2) := by
  intro l1
  induction l1 with
  | nil =>
    intro l2 s
    simp [runChunks]
  | cons i rest ih =>
    intro l2 s
    simp only [List.cons_append, runChunks, List.append_eq]
    rw [ih]
    simp [List.append_assoc]

theorem file_chunk_store (s : ServerState) (sid : SocketId) (tid : TransferId)
    (t : Transfer) (i : Nat) (c : Chunk)
    (ht : mapLookup s.activeTransfers tid = some t) (hfrom : t.fromId = sid) :
    file_chunk s sid tid i c false
      = ({ s with activeTransfers := mapSet s.activeTransfers tid { t with chunks := listSet t.chunks i c } },
         [Emit.mk [sid] (.upload_progress tid
            (jsRoundPercent ((listSet t.chunks i c).filterMap id).length
              (if t.totalChunks = 0 then 1 else t.totalChunks)))]) := by
  unfold file_chunk
  rw [ht]
  simp only []
  rw [if_pos hfrom]
  simp

theorem file_chunk_complete_eval (s : ServerState) (sid : SocketId)
    (tid : TransferId) (t : Transfer) (i : Nat) (c : Chunk)
    (ht : mapLookup s.activeTransfers tid = some t) (hfrom : t.fromId = sid)
    (hlen : t.chunks.length ≤ i + 1)
    (hcomp : ((listSet t.chunks i c).filterMap id).length = i + 1) :
    file_chunk s sid tid i c true
      = ({ s with activeTransfers := mapDelete s.activeTransfers tid },
         [⟨[sid], .upload_progress tid 100⟩,
          ⟨roomTargetsExcept s.socketRooms t.pin sid,
            .file_received tid t.fileName t.fileType
              (((listSet t.chunks i c).map (fun o => o.getD [])).flatten) sid⟩,
          ⟨[sid], .transfer_complete tid⟩]) := by
  have hdense := listSet_dense t.chunks i c hlen hcomp
  unfold file_chunk
  rw [ht]
  simp only [if_pos hfrom, if_true, hcomp, hdense]
  rw [if_neg (Nat.succ_ne_zero i), jsRoundPercent_self (i + 1) (Nat.succ_pos i),
    if_pos ⟨trivial, trivial⟩]

theorem runChunks_partial (sid : SocketId) (tid : TransferId) (chunkList : List Chunk) :
    ∀ (J : List Nat) (s : ServerState) (t : Transfer) (K : List Nat),
      mapLookup s.activeTransfers tid = some t → t.fromId = sid →
      t.totalChunks = 0 →
      (∀ j, chunkGet t.chunks j = if j ∈ K then some (chunkList.getD j []) else none) →
      t.chunks.length < chunkList.length →
      (∀ i ∈ J, i + 1 < chunkList.length) →
      ∃ chunksJ,
        (runChunks sid tid chunkList s J).1
          = { s with activeTransfers := mapSet s.activeTransfers tid { t with chunks := chunksJ } } ∧
        (∀ j, chunkGet chunksJ j = if j ∈ K ∨ j ∈ J then some (chunkList.getD j []) else none) ∧
        chunksJ.length < chunkList.length ∧
        ∀ e ∈ (runChunks sid tid chunkList s J).2,
          ∃ p, e = Emit.mk [sid] (.upload_progress tid p) := by
  intro J
  induction J with
  | nil =>
    intro s t K ht hfrom htot hK hlen hJ
    refine ⟨t.chunks, ?_, ?_, hlen, ?_⟩
    · show s = _
      rw [show ({ t with chunks := t.chunks } : Transfer) = t from rfl,
        mapSet_eq_of_lookup _ _ _ ht]
    · intro j
      rw [hK j]
      simp
    · intro e he
      simp [runChunks] at he
  | cons i rest ih =>
    intro s t K ht hfrom htot hK hlen hJ
    have hiN : i + 1 < chunkList.length := hJ i (List.mem_cons_self i rest)
    have hlast : decide (i + 1 = chunkList.length) = false :=
      decide_eq_false (by omega)
    have hstep := file_chunk_store s sid tid t i (chunkList.getD i []) ht hfrom
    have hrun : runChunks sid tid chunkList s (i :: rest)
        = ((runChunks sid tid chunkList
              { s with activeTransfers := mapSet s.activeTransfers tid { t with chunks := listSet t.chunks i (chunkList.getD i []) } }
              rest).1,
           [Emit.mk [sid] (.upload_progress tid
              (jsRoundPercent ((listSet t.chunks i (chunkList.getD i [])).filterMap id).length
                (if t.totalChunks = 0 then 1 else t.totalChunks)))]
             ++ (runChunks sid tid chunkList
                  { s with activeTransfers := mapSet s.activeTransfers tid { t with chunks := listSet t.chunks i (chunkList.getD i []) } }
                  rest).2) := by
      simp only [runChunks, hlast, hstep]
    obtain ⟨cJ, hstate, hpt, hlen2, hev⟩ :=
      ih { s with activeTransfers := mapSet s.activeTransfers tid { t with chunks := listSet t.chunks i (chunkList.getD i []) } }
        { t with chunks := listSet t.chunks i (chunkList.getD i []) } (i :: K)
        (mapLookup_mapSet_self _ _ _) hfrom htot
        (by
          intro j
          show chunkGet (listSet t.chunks i (chunkList.getD i [])) j = _
          rw [chunkGet_listSet]
          by_cases hji : j = i
          · subst hji
            simp
          · rw [if_neg hji, hK j]
            have hiffm : (j ∈ K) ↔ (j ∈ i :: K) := by
              simp [List.mem_cons, hji]
            rw [if_congr hiffm rfl rfl])
        (by
          show (listSet t.chunks i (chunkList.getD i [])).length < chunkList.length
          rw [listSet_length]
          omega)
        (fun x hx => hJ x (List.mem_cons_of_mem _ hx))
    refine ⟨cJ, ?_, ?_, hlen2, ?_⟩
    · rw [hrun]
      show (runChunks sid tid chunkList _ rest).1 = _
      rw [hstate]
      show ServerState.mk _ _ _ = ServerState.mk _ _ _
      rw [mapSet_mapSet]
    · intro j
      rw [hpt j]
      have hiffm : (j ∈ i :: K ∨ j ∈ rest) ↔ (j ∈ K ∨ j ∈ i :: rest) := by
        simp only [List.mem_cons]
        tauto
      rw [if_congr hiffm rfl rfl]
    · intro e he
      rw [hrun] at he
      rcases List.mem_append.1 he with h1 | h1
      · exact ⟨_, List.mem_singleton.1 h1⟩
      · exact hev e h1

theorem keys_mapSet_nodup {α β : Type} [DecidableEq α] (m : List (α × β)) (k : α)
    (v : β) (h : keysNodup m) : keysNodup (mapSet m k v) := by
  induction m with
  | nil => simp [keysNodup, mapSet]
  | cons e rest ih =>
    obtain ⟨k0, v0⟩ := e
    simp only [keysNodup, List.map_cons, List.nodup_cons] at h
    by_cases he : k0 = k
    · subst he
      have hset : mapSet ((k0, v0) :: rest) k0 v = (k0, v) :: rest := by
        simp [mapSet]
      rw [hset]
      simp only [keysNodup, List.map_cons, List.nodup_cons]
      exact ⟨h.1, h.2⟩
    · simp only [mapSet, if_neg he]
      simp only [keysNodup, List.map_cons, List.nodup_cons]
      refine ⟨?_, ih h.2⟩
      intro hmem
      rcases List.mem_map.1 hmem with ⟨e2, he2, hee⟩
      rcases mem_mapSet rest k v e2 he2 with h3 | h3
      · exact h.1 (List.mem_map.2 ⟨e2, h3, hee⟩)
      · rw [h3] at hee
        exact he hee.symm

/-- Claim C1 (amended): for every file split into chunks 0..N-1 and
every arrival order in which the chunk flagged isLast (index N-1)
arrives last, with the earlier chunks 0..N-2 arriving exactly once each
in any order, the transfer completes: the record is deleted, the sender
is told transfer_complete, and the delivered file_received payload is
the exact byte-for-byte concatenation of the chunk payloads in index
order — the relative order of the non-final chunks never affects the
final bytes.  (The original claim is false for orders in which the
isLast chunk is not the final arrival; see the counterexample.) -/
theorem file_chunk_completion_concat (s : ServerState) (sid : SocketId)
    (tid : TransferId) (t : Transfer) (chunkList : List Chunk) (order : List Nat)
    (ht : mapLookup s.activeTransfers tid = some t) (hfrom : t.fromId = sid)
    (hch : t.chunks = []) (htot : t.totalChunks = 0)
    (hN : 0 < chunkList.length)
    (hnd : keysNodup s.activeTransfers)
    (hperm : order.Perm (List.range (chunkList.length - 1))) :
    mapLookup (runChunks sid tid chunkList s
        (order ++ [chunkList.length - 1])).1.activeTransfers tid = none ∧
    ∃ pre,
      (runChunks sid tid chunkList s (order ++ [chunkList.length - 1])).2
        = pre ++
          [⟨[sid], .upload_progress tid 100⟩,
           ⟨roomTargetsExcept s.socketRooms t.pin sid,
             .file_received tid t.fileName t.fileType chunkList.flatten sid⟩,
           ⟨[sid], .transfer_complete tid⟩] ∧
      ∀ e ∈ pre, ∃ p, e = Emit.mk [sid] (.upload_progress tid p) := by
  have hmem : ∀ i ∈ order, i + 1 < chunkList.length := by
    intro i hi
    have h2 := hperm.mem_iff.1 hi
    rw [List.mem_range] at h2
    omega
  obtain ⟨cJ, hstate, hpt, hlenJ, hev⟩ :=
    runChunks_partial sid tid chunkList order s t [] ht hfrom htot
      (by
        intro j
        rw [hch]
        simp [chunkGet_nil])
      (by
        rw [hch]
        simpa using hN)
      hmem
  have hpt' : ∀ j, chunkGet cJ j
      = if j < chunkList.length - 1 then some (chunkList.getD j []) else none := by
    intro j
    rw [hpt j]
    have hiffm : (j ∈ ([] : List Nat) ∨ j ∈ order) ↔ j < chunkList.length - 1 := by
      simp [hperm.mem_iff, List.mem_range]
    rw [if_congr hiffm rfl rfl]
  have hlen_ge : chunkList.length - 1 ≤ cJ.length := by
    by_contra hlt
    push_neg at hlt
    have h1 := hpt' cJ.length
    rw [if_pos hlt, chunkGet_of_length_le cJ cJ.length (le_refl _)] at h1
    exact Option.noConfusion h1
  have hcJlen : cJ.length = chunkList.length - 1 := by omega
  have hF : listSet cJ (chunkList.length - 1) (chunkList.getD (chunkList.length - 1) [])
      = chunkList.map some := by
    apply list_eq_of_chunkGet
    · rw [listSet_length, List.length_map, hcJlen,
        Nat.max_eq_right (Nat.le_succ _)]
      omega
    · intro j
      rw [chunkGet_listSet]
      by_cases hj : j = chunkList.length - 1
      · subst hj
        rw [if_pos rfl, chunkGet_map_some_lt chunkList [] _ (by omega)]
      · rw [if_neg hj, hpt' j]
        by_cases hj2 : j < chunkList.length - 1
        · rw [if_pos hj2, chunkGet_map_some_lt chunkList [] j (by omega)]
        · rw [if_neg hj2, chunkGet_of_length_le _ _ (by rw [List.length_map]; omega)]
  have hcomp : ((listSet cJ (chunkList.length - 1)
      (chunkList.getD (chunkList.length - 1) [])).filterMap id).length
      = (chunkList.length - 1) + 1 := by
    rw [hF]
    simp
    omega
  have hfin := file_chunk_complete_eval
    { s with activeTransfers := mapSet s.activeTransfers tid { t with chunks := cJ } }
    sid tid { t with chunks := cJ } (chunkList.length - 1)
    (chunkList.getD (chunkList.length - 1) [])
    (mapLookup_mapSet_self _ _ _) hfrom
    (by
      show cJ.length ≤ chunkList.length - 1 + 1
      omega)
    hcomp
  have hdec : decide ((chunkList.length - 1) + 1 = chunkList.length) = true :=
    decide_eq_true (by omega)
  have hflat : ((listSet cJ (chunkList.length - 1)
        (chunkList.getD (chunkList.length - 1) [])).map (fun o => o.getD [])).flatten
      = chunkList.flatten := by
    rw [hF, List.map_map]
    have hid : ∀ a ∈ chunkList, ((fun o : Option Chunk => o.getD []) ∘ some) a = a :=
      fun a _ => rfl
    rw [List.map_congr_left hid]
    simp
  rw [runChunks_append, hstate]
  have hrun2 : runChunks sid tid chunkList
      { s with activeTransfers := mapSet s.activeTransfers tid { t with chunks := cJ } }
      [chunkList.length - 1]
      = (({ s with activeTransfers := mapDelete (mapSet s.activeTransfers tid { t with chunks := cJ }) tid } : ServerState),
         [⟨[sid], .upload_progress tid 100⟩,
          ⟨roomTargetsExcept s.socketRooms t.pin sid,
            .file_received tid t.fileName t.fileType chunkList.flatten sid⟩,
          ⟨[sid], .transfer_complete tid⟩]) := by
    simp only [runChunks, hdec, hfin, hflat, List.append_nil]
  rw [hrun2]
  refine ⟨?_, (runChunks sid tid chunkList s order).2, rfl, hev⟩
  exact mapLookup_mapDelete_self _ _ (keys_mapSet_nodup _ _ _ hnd)

/-- Claim C1 counterexample: submitting indices 0..N-1 exactly once each
with chunk N-1 flagged isLast does NOT complete the transfer in every
arrival order.  For N = 2 and arrival order [1, 0], the isLast chunk
arrives first: when it arrives only one chunk is stored, and when chunk 0
arrives isLast is false, so the completion branch never runs — the
record stays in activeTransfers and only upload_progress events are
emitted, never file_received or transfer_complete. -/
theorem file_chunk_out_of_order_no_completion :
    mapLookup (runChunks "S" "T1" [[1], [2]] exState3 [1, 0]).1.activeTransfers "T1"
      = some ⟨"S", "777777", "f.txt", 10, "text/plain", [some [1], some [2]], 2, ["R"], 5⟩ ∧
    (runChunks "S" "T1" [[1], [2]] exState3 [1, 0]).2
      = [⟨["S"], .upload_progress "T1" 50⟩, ⟨["S"], .upload_progress "T1" 100⟩] :=
  ⟨by decide, by decide⟩

/-- Witness for the amended C1: a 3-chunk transfer submitted in order
[1, 0, 2] (isLast chunk last) completes with the concatenation. -/
theorem file_chunk_completion_concat_witness :
    mapLookup (runChunks "S" "T1" [[1], [2], [3]] exState3
        ([1, 0] ++ [2])).1.activeTransfers "T1" = none ∧
    ∃ pre,
      (runChunks "S" "T1" [[1], [2], [3]] exState3 ([1, 0] ++ [2])).2
        = pre ++
          [⟨["S"], .upload_progress "T1" 100⟩,
           ⟨roomTargetsExcept exState3.socketRooms "777777" "S",
             .file_received "T1" "f.txt" "text/plain" [1, 2, 3] "S"⟩,
           ⟨["S"], .transfer_complete "T1"⟩] ∧
      ∀ e ∈ pre, ∃ p, e = Emit.mk ["S"] (.upload_progress "T1" p) :=
  file_chunk_completion_concat exState3 "S" "T1" exTransfer [[1], [2], [3]] [1, 0]
    (by decide) rfl rfl rfl (by decide) (by decide) (by decide)
